import Mathlib

/-!
Verification development for the doc-classifier core pipeline
(entity extraction → fuzzy similarity → entity linking → page assignment).

The definitions below are a shallow embedding of the Python sources:
  - `config.py`                         (Settings)
  - `src/tennr_classifier/fuzzy_matcher.py`   (FuzzyMatcher)
  - `src/tennr_classifier/entity_extractor.py` (EntityExtractor._normalize_value)
  - `src/tennr_classifier/entity_linker.py`   (PatientEntityLinker)
  - `src/tennr_classifier/page_assigner.py`   (PageAssigner)

Modelling conventions:
  - Python floats are modelled as ℚ (exact arithmetic); `round(x, 3)` is
    modelled by `pyRound3` (round-half-to-even at three decimals).
  - Python strings are modelled as Lean `String`/`List Char`; the string
    operations used by the sources (strip, lower, replace of a single
    character, split, zfill, int()) are reimplemented character-wise over
    the ASCII subset the pipeline works with.
  - The external fuzzy-ratio library (rapidfuzz, or its difflib fallback)
    is not part of this repository; it is modelled as an abstract `Fuzz`
    structure of three total scoring functions.
  - `FuzzyMatcher._normalize_dob` calls Python `int()` on the year field,
    which can raise `ValueError`; fallible paths are therefore modelled
    with `Except Unit`.
-/

namespace Tennr

/-! ## Python string primitives (ASCII model) -/

/-- ASCII whitespace, the subset of Python's `str.strip()` / `\s` class
relevant to this pipeline. -/
def isWs (c : Char) : Bool :=
  c = ' ' || c = '\t' || c = '\n' || c = '\r' || c = '\x0b' || c = '\x0c'

/-- Python `value.strip()` on a character list. -/
def pyStrip (l : List Char) : List Char :=
  ((l.dropWhile isWs).reverse.dropWhile isWs).reverse

/-- Python `value.replace(c, d)` for single-character arguments. -/
def pyReplaceChar (c d : Char) (l : List Char) : List Char :=
  l.map fun x => if x = c then d else x

/-- Python `value.split(sep)` for a single-character separator
(`"".split(sep) == [""]`). -/
def splitOnChar (sep : Char) : List Char → List (List Char)
  | [] => [[]]
  | c :: rest =>
    match splitOnChar sep rest with
    | [] => if c = sep then [[], []] else [[c]]
    | h :: t => if c = sep then [] :: h :: t else (c :: h) :: t

/-- Python `value.zfill(w)`: left-pad with `'0'` to width `w`, keeping a
leading sign in front of the padding. -/
def pyZfill (w : Nat) (s : List Char) : List Char :=
  if w ≤ s.length then s
  else
    match s with
    | [] => List.replicate w '0'
    | c :: rest =>
      if c = '+' || c = '-' then c :: (List.replicate (w - s.length) '0' ++ rest)
      else List.replicate (w - s.length) '0' ++ s

/-- Decimal digits (with the single internal underscores Python's `int()`
accepts) after the first digit: accumulates the value. -/
def parseDigitsUAux : List Char → Nat → Option Nat
  | [], acc => some acc
  | '_' :: c :: rest, acc =>
    if c.isDigit then parseDigitsUAux rest (acc * 10 + (c.toNat - 48)) else none
  | ['_'], _ => none
  | c :: rest, acc =>
    if c.isDigit then parseDigitsUAux rest (acc * 10 + (c.toNat - 48)) else none

/-- Nonempty digit run starting with a digit. -/
def parseDigitsU : List Char → Option Nat
  | [] => none
  | c :: rest => if c.isDigit then parseDigitsUAux rest (c.toNat - 48) else none

/-- Python `int(s)` (modelled subset: optional surrounding whitespace, an
optional single sign, decimal digits with single internal underscores);
`none` models a raised `ValueError`. -/
def pyInt? (l : List Char) : Option Int :=
  match pyStrip l with
  | '+' :: rest => (parseDigitsU rest).map Int.ofNat
  | '-' :: rest => (parseDigitsU rest).map fun n => -(n : Int)
  | rest => (parseDigitsU rest).map Int.ofNat

/-- One maximal whitespace run is replaced by a single space, as
`re.sub(r"\s+", " ", value)` does; the flag records whether the previous
character was part of a whitespace run. -/
def collapseWs : List Char → Bool → List Char
  | [], _ => []
  | c :: rest, prevWs =>
    if isWs c then
      if prevWs then collapseWs rest true else ' ' :: collapseWs rest true
    else c :: collapseWs rest false

/-- Python `value.split()` (no argument): split on whitespace runs,
discarding empty tokens. `cur` is the current token, reversed. -/
def pySplitWsAux : List Char → List Char → List (List Char)
  | [], cur => if cur.isEmpty then [] else [cur.reverse]
  | c :: rest, cur =>
    if isWs c then
      if cur.isEmpty then pySplitWsAux rest [] else cur.reverse :: pySplitWsAux rest []
    else pySplitWsAux rest (c :: cur)

def pySplitWs (l : List Char) : List (List Char) := pySplitWsAux l []

/-- ASCII alphanumeric characters. -/
def isAsciiAlnum (c : Char) : Bool := c.isAlpha || c.isDigit

/-- Round-half-to-even at three decimal places, modelling Python's
`round(x, 3)` on the exact rational value. -/
def pyRound3 (q : ℚ) : ℚ :=
  let s := q * 1000
  let f : ℤ := Rat.floor s
  let r := s - (f : ℚ)
  let k : ℤ :=
    if r < 1/2 then f
    else if 1/2 < r then f + 1
    else if f % 2 = 0 then f else f + 1
  (k : ℚ) / 1000

/-! ## Identifier kinds and settings (`config.py`) -/

/-- The four identifier kinds handled by the pipeline (`name|mrn|dob|phone`). -/
inductive Kind where
  | name
  | mrn
  | dob
  | phone
deriving DecidableEq

/-- The `Settings` fields consumed by matcher, linker and assigner
(`config.py`, with its default values reproduced in `defaultSettings`). -/
structure Settings where
  name_match_threshold : ℚ
  mrn_match_threshold : ℚ
  dob_match_threshold : ℚ
  phone_match_threshold : ℚ
  linker_strict_mode : Bool
  assign_min_confidence : ℚ
  assign_name_weight : ℚ
  assign_mrn_weight : ℚ
  assign_dob_weight : ℚ
  assign_phone_weight : ℚ
  assign_ambiguity_margin : ℚ
  assign_allow_unassigned : Bool
deriving DecidableEq

/-- The default values of `config.Settings`. -/
def defaultSettings : Settings :=
  { name_match_threshold := 85/100
    mrn_match_threshold := 99/100
    dob_match_threshold := 99/100
    phone_match_threshold := 95/100
    linker_strict_mode := false
    assign_min_confidence := 6/10
    assign_name_weight := 3/10
    assign_mrn_weight := 4/10
    assign_dob_weight := 2/10
    assign_phone_weight := 1/10
    assign_ambiguity_margin := 5/100
    assign_allow_unassigned := true }

/-! ## Fuzzy matcher (`fuzzy_matcher.py`) -/

/-- Interface of the external fuzzy string library (rapidfuzz, or the
difflib fallback): `rPlain` models `fuzz.ratio`, `rTokenSort` models
`fuzz.token_sort_ratio`, `rSub` models `fuzz.partial_ratio`.  All return a
raw similarity that the matcher scales by 1/100. -/
structure Fuzz where
  rPlain : String → String → ℚ
  rTokenSort : String → String → ℚ
  rSub : String → String → ℚ

/-- An arbitrary concrete instance of the external library interface, used
to evaluate closed statements whose control path never reaches a
fuzzy-ratio call. -/
def fuzzZero : Fuzz := ⟨fun _ _ => 0, fun _ _ => 0, fun _ _ => 0⟩

/-- `FuzzyMatcher._scale_score`. -/
def scaleScore (raw : ℚ) : ℚ := max 0 (min (raw / 100) 1)

/-- `FuzzyMatcher._normalize_name`: strip, lowercase, drop characters
outside `[a-z0-9\s]`, collapse whitespace runs to single spaces. -/
def normalizeName (value : String) : String :=
  let v := (pyStrip value.data).map Char.toLower
  let v := v.filter fun c => c.isLower || c.isDigit || isWs c
  ⟨collapseWs v false⟩

/-- `FuzzyMatcher._normalize_mrn`: lowercase, keep only `[a-z0-9]`. -/
def normalizeMrn (value : String) : String :=
  ⟨(value.data.map Char.toLower).filter fun c => c.isLower || c.isDigit⟩

/-- `FuzzyMatcher._normalize_dob`: unify `-` and `.` separators to `/`;
if the value splits into exactly three parts, expand a two-character year
with a `<50 → 20xx, else 19xx` pivot (this calls Python `int()` on the
year, raising `ValueError` — modelled by `Except.error ()` — when the
two-character year is not numeric) and zero-pad month/day/year. -/
def normalizeDob (value : String) : Except Unit String :=
  let v := pyReplaceChar '.' '/' (pyReplaceChar '-' '/' value.data)
  match splitOnChar '/' v with
  | [month, day, year] =>
    if year.length = 2 then
      match pyInt? year with
      | none => .error ()
      | some y =>
        let year' := if y < 50 then '2' :: '0' :: year else '1' :: '9' :: year
        .ok ⟨pyZfill 2 month ++ '/' :: pyZfill 2 day ++ '/' :: pyZfill 4 year'⟩
    else
      .ok ⟨pyZfill 2 month ++ '/' :: pyZfill 2 day ++ '/' :: pyZfill 4 year⟩
  | _ => .ok ⟨v⟩

/-- `FuzzyMatcher.score_name`. -/
def scoreName (fz : Fuzz) (a b : String) : ℚ :=
  scaleScore (fz.rTokenSort (normalizeName a) (normalizeName b))

/-- `FuzzyMatcher.score_mrn`. -/
def scoreMrn (fz : Fuzz) (a b : String) : ℚ :=
  let aNorm := normalizeMrn a
  let bNorm := normalizeMrn b
  if aNorm = "" ∨ bNorm = "" then 0
  else if aNorm = bNorm then 1
  else scaleScore (fz.rPlain aNorm bNorm)

/-- `FuzzyMatcher.score_dob` (propagates the `ValueError` of
`_normalize_dob`). -/
def scoreDob (a b : String) : Except Unit ℚ := do
  let na ← normalizeDob a
  let nb ← normalizeDob b
  pure (if na = nb then 1 else 0)

/-- `FuzzyMatcher._normalize_phone`: keep digits only, then the last ten
digits when at least ten are present. -/
def normalizePhone (value : String) : String :=
  let digits := value.data.filter Char.isDigit
  if 10 ≤ digits.length then ⟨digits.drop (digits.length - 10)⟩ else ⟨digits⟩

/-- `FuzzyMatcher.score_phone`. -/
def scorePhone (fz : Fuzz) (a b : String) : ℚ :=
  let aNorm := normalizePhone a
  let bNorm := normalizePhone b
  if aNorm = "" ∨ bNorm = "" then 0
  else if aNorm = bNorm then 1
  else scaleScore (fz.rSub aNorm bNorm)

/-! ## Extractor value normalization (`entity_extractor.py`) -/

/-- Python `token.strip(",:")`. -/
def stripPunct (l : List Char) : List Char :=
  let p : Char → Bool := fun c => c = ',' || c = ':'
  ((l.dropWhile p).reverse.dropWhile p).reverse

/-- Python `str.capitalize()`: first character uppercased, the rest
lowercased. -/
def pyCapitalize : List Char → List Char
  | [] => []
  | c :: rest => Char.toUpper c :: rest.map Char.toLower

/-- `EntityExtractor._normalize_value`: strip, then per kind — `mrn`: keep
`[A-Za-z0-9]` and uppercase; `dob`: replace `.` with `/` (only `.`; `-` is
left as is); `name`: whitespace-split, strip `,`/`:` per token, drop empty
tokens, capitalize, rejoin with single spaces; `phone`: unchanged. -/
def normalizeValue (kind : Kind) (value : String) : String :=
  let v := pyStrip value.data
  match kind with
  | .mrn => ⟨(v.filter isAsciiAlnum).map Char.toUpper⟩
  | .dob => ⟨pyReplaceChar '.' '/' v⟩
  | .name =>
    let tokens := (pySplitWs v).map stripPunct
    let tokens := tokens.filter fun t => !t.isEmpty
    ⟨List.intercalate [' '] (tokens.map pyCapitalize)⟩
  | .phone => ⟨v⟩

/-! ## Pipeline data model (`pipeline.py`) -/

/-- `pipeline.IdentifierMatch` (the bounding box is carried but unused by
linker and assigner). -/
structure IdentifierMatch where
  kind : Kind
  value : String
  confidence : ℚ
  bbox : Int × Int × Int × Int
  word_indices : List Nat
deriving DecidableEq

/-- `pipeline.PageEntities`. -/
structure PageEntities where
  page_index : Nat
  identifiers : List IdentifierMatch
deriving DecidableEq

/-- `pipeline.LinkedIdentifier`. -/
structure LinkedIdentifier where
  kind : Kind
  value : String
  confidence : ℚ
  sources : List (Nat × List Nat)
deriving DecidableEq

/-- `pipeline.LinkedPatient`. -/
structure LinkedPatient where
  patient_id : String
  identifiers : List LinkedIdentifier
  pages : List Nat
  score : ℚ
deriving DecidableEq

/-! ## Entity linker (`entity_linker.py`) -/

/-- The `identifiers` dict of a `ClusterCandidate`: the kind is a closed
enum, so at most one `LinkedIdentifier` per kind is representable, exactly
as a `Dict[str, LinkedIdentifier]` keyed by kind stores it. -/
structure ClusterIdentifiers where
  nameId : Option LinkedIdentifier
  mrnId : Option LinkedIdentifier
  dobId : Option LinkedIdentifier
  phoneId : Option LinkedIdentifier
deriving DecidableEq

/-- `cluster.identifiers.get(kind)`. -/
def ClusterIdentifiers.get (ids : ClusterIdentifiers) : Kind → Option LinkedIdentifier
  | .name => ids.nameId
  | .mrn => ids.mrnId
  | .dob => ids.dobId
  | .phone => ids.phoneId

/-- `cluster.identifiers[kind] = v`. -/
def ClusterIdentifiers.set (ids : ClusterIdentifiers) : Kind → LinkedIdentifier → ClusterIdentifiers
  | .name, v => { ids with nameId := some v }
  | .mrn, v => { ids with mrnId := some v }
  | .dob, v => { ids with dobId := some v }
  | .phone, v => { ids with phoneId := some v }

/-- The empty `identifiers` dict. -/
def ClusterIdentifiers.empty : ClusterIdentifiers := ⟨none, none, none, none⟩

/-- `entity_linker.ClusterCandidate`. -/
structure ClusterCandidate where
  patient_id : String
  identifiers : ClusterIdentifiers
  pages : List Nat
  score : ℚ
deriving DecidableEq

/-- Decimal digit as a character. -/
def digitChar : Nat → Char
  | 0 => '0' | 1 => '1' | 2 => '2' | 3 => '3' | 4 => '4'
  | 5 => '5' | 6 => '6' | 7 => '7' | 8 => '8' | _ => '9'

/-- Character back to decimal digit. -/
def charDigit (c : Char) : Nat := c.toNat - 48

/-- Little-endian decimal digits by structural recursion on a fuel bound
(agrees with `Nat.digits 10`, see `natDigitsAux_eq_digits`). -/
def natDigitsAux : Nat → Nat → List Nat
  | 0, _ => []
  | _ + 1, 0 => []
  | fuel + 1, n + 1 => (n + 1) % 10 :: natDigitsAux fuel ((n + 1) / 10)

/-- Decimal rendering of a natural number (big-endian characters; `[]` for
zero, matching the empty digit list). -/
def natDecimalChars (n : Nat) : List Char :=
  ((natDigitsAux n n).reverse).map digitChar

/-- Python `f"patient_{n:03d}"`. -/
def patientIdString (n : Nat) : String :=
  ⟨"patient_".data ++ List.replicate (3 - (natDecimalChars n).length) '0' ++ natDecimalChars n⟩

/-- `PatientEntityLinker._merge_identifier`: insert a fresh
`LinkedIdentifier` if the cluster holds none of this kind; otherwise
replace the stored value when the passed match score is strictly greater
than the stored confidence, raise the confidence to the max of old and
new, and append the new source.  In either case add the page to the
cluster's page list (if absent) and raise the cluster score to the max of
its current score and the identifier's confidence. -/
def mergeIdentifier (cluster : ClusterCandidate) (identifier : IdentifierMatch)
    (page_index : Nat) (score : ℚ) : ClusterCandidate :=
  let ids :=
    match cluster.identifiers.get identifier.kind with
    | none =>
      cluster.identifiers.set identifier.kind
        ⟨identifier.kind, identifier.value, identifier.confidence,
          [(page_index, identifier.word_indices)]⟩
    | some existing =>
      cluster.identifiers.set identifier.kind
        { existing with
          value := if existing.confidence < score then identifier.value else existing.value
          confidence := max existing.confidence identifier.confidence
          sources := existing.sources ++ [(page_index, identifier.word_indices)] }
  { cluster with
    identifiers := ids
    pages := if page_index ∈ cluster.pages then cluster.pages else cluster.pages ++ [page_index]
    score := max cluster.score identifier.confidence }

/-- `PatientEntityLinker._match_identifier` (0 when the cluster has no
value of this kind; the dob comparison can raise). -/
def matchIdentifier (fz : Fuzz) (cluster : ClusterCandidate)
    (identifier : IdentifierMatch) : Except Unit ℚ :=
  match cluster.identifiers.get identifier.kind with
  | none => .ok 0
  | some linked =>
    match identifier.kind with
    | .name => .ok (scoreName fz linked.value identifier.value)
    | .mrn => .ok (scoreMrn fz linked.value identifier.value)
    | .dob => scoreDob linked.value identifier.value
    | .phone => .ok (scorePhone fz linked.value identifier.value)

/-- `PatientEntityLinker._threshold_for` (the kind enum is closed, so the
`0.8` fallback of `mapping.get(kind, 0.8)` is never consulted). -/
def thresholdFor (S : Settings) : Kind → ℚ
  | .name => S.name_match_threshold
  | .mrn => S.mrn_match_threshold
  | .dob => S.dob_match_threshold
  | .phone => S.phone_match_threshold

/-- The similarity of `identifier` against each existing cluster, in
cluster order. -/
def matchScores (fz : Fuzz) (clusters : List ClusterCandidate)
    (identifier : IdentifierMatch) : Except Unit (List ℚ) :=
  clusters.mapM (fun cluster => matchIdentifier fz cluster identifier)

/-- The `best_cluster`/`best_score` fold of `_assign_identifier`: starting
from `(None, 0.0)`, keep the first index whose score strictly exceeds the
best so far. -/
def accScore (acc : Option (Nat × ℚ)) : ℚ :=
  match acc with | some (_, b) => b | none => 0

def bestOfAux : List ℚ → Nat → Option (Nat × ℚ) → Option (Nat × ℚ)
  | [], _, acc => acc
  | s :: rest, i, acc => bestOfAux rest (i + 1) (if accScore acc < s then some (i, s) else acc)

def bestOf (scores : List ℚ) : Option (Nat × ℚ) := bestOfAux scores 0 none

/-- `best_score` as passed to forced attachment (0 when no cluster scored
positively). -/
def bestScore (best : Option (Nat × ℚ)) : ℚ :=
  match best with | some (_, s) => s | none => 0

/-- The branch of `_assign_identifier` taken for a resolved score list, in
source order: the merge-threshold check, the forced attachment to a
preferred same-page anchor, the strict-mode name-only branch, the
(syntactically duplicated) second merge-threshold check, and cluster
creation. -/
inductive Branch where
  | merge
  | attach
  | strictSkip
  | mergeDup
  | create
deriving DecidableEq

def assignBranch (S : Settings) (kind : Kind) (scores : List ℚ)
    (preferred : Option Nat) (force_attach : Bool) : Branch :=
  let best := bestOf scores
  if best.isSome ∧ thresholdFor S kind ≤ bestScore best then .merge
  else if preferred.isSome && force_attach then .attach
  else if best.isSome ∧ kind = Kind.name ∧ S.name_match_threshold ≤ bestScore best ∧
      S.linker_strict_mode = true then .strictSkip
  else if best.isSome ∧ thresholdFor S kind ≤ bestScore best then .mergeDup
  else .create

/-- In-place mutation of the cluster stored at handle `h`
(`self._merge_identifier(cluster, ...)` on a list element). -/
def mergeAt (clusters : List ClusterCandidate) (h : Nat)
    (identifier : IdentifierMatch) (page_index : Nat) (score : ℚ) : List ClusterCandidate :=
  match clusters.get? h with
  | some c => clusters.set h (mergeIdentifier c identifier page_index score)
  | none => clusters

/-- `PatientEntityLinker._create_cluster` for patient counter value `n`. -/
def newCluster (identifier : IdentifierMatch) (page_index : Nat) (n : Nat) : ClusterCandidate :=
  { patient_id := patientIdString n
    identifiers :=
      ClusterIdentifiers.empty.set identifier.kind
        ⟨identifier.kind, identifier.value, identifier.confidence,
          [(page_index, identifier.word_indices)]⟩
    pages := [page_index]
    score := identifier.confidence }

/-- The body of `_assign_identifier` once the per-cluster scores are
resolved: returns the handle of the cluster the identifier went to, the
updated cluster arena, and the updated patient counter.  Clusters are
addressed by arena handles (list indices); this models Python object
identity, which coincides with value identity here because patient ids are
pairwise distinct.  By construction `assignBranch` yields `merge`,
`strictSkip` or `mergeDup` only when `bestOf` is `some`, and `attach` only
when `preferred` is `some`; the final arm is the cluster-creation branch. -/
def assignIdentifierCore (S : Settings) (clusters : List ClusterCandidate) (scores : List ℚ)
    (identifier : IdentifierMatch) (page_index : Nat) (preferred : Option Nat)
    (force_attach : Bool) (next_patient : Nat) : Nat × List ClusterCandidate × Nat :=
  match assignBranch S identifier.kind scores preferred force_attach, bestOf scores, preferred with
  | .merge, some (h, s), _ => (h, mergeAt clusters h identifier page_index s, next_patient)
  | .mergeDup, some (h, s), _ => (h, mergeAt clusters h identifier page_index s, next_patient)
  | .attach, best, some p => (p, mergeAt clusters p identifier page_index (bestScore best), next_patient)
  | .strictSkip, some (h, _), _ => (h, clusters, next_patient)
  | _, _, _ =>
    (clusters.length, clusters ++ [newCluster identifier page_index next_patient], next_patient + 1)

/-- `PatientEntityLinker._nearest_anchor`: the nearest preceding anchor
(greatest position `≤ idx`, first such on ties), falling back to the
earliest following anchor; `none` only when no anchor exists (in the
source this case cannot be reached because the method is only called with
a nonempty anchor list). -/
def maxByFst : List (Nat × Nat) → Option (Nat × Nat)
  | [] => none
  | x :: rest =>
    match maxByFst rest with
    | none => some x
    | some m => some (if m.1 > x.1 then m else x)

def minByFst : List (Nat × Nat) → Option (Nat × Nat)
  | [] => none
  | x :: rest =>
    match minByFst rest with
    | none => some x
    | some m => some (if m.1 < x.1 then m else x)

def nearestAnchor (idx : Nat) (anchors : List (Nat × Nat)) : Option Nat :=
  match maxByFst (anchors.filter fun a => a.1 ≤ idx) with
  | some a => some a.2
  | none => (minByFst anchors).map fun a => a.2

/-- Kind partition used by `link` (`anchor_kinds = {"mrn"}`,
`supportive_kinds = {"name", "dob", "phone"}`). -/
def isAnchorKind (k : Kind) : Bool := k = Kind.mrn

def isSupportiveKind (k : Kind) : Bool := k = Kind.name || k = Kind.dob || k = Kind.phone

/-- Accumulated linking state: the cluster arena and the patient counter
(`itertools.count(1)`). -/
structure LinkState where
  clusters : List ClusterCandidate
  next_patient : Nat
deriving DecidableEq

/-- One iteration of the inner loop of `link`: compute the preferred anchor
and forced-attachment flag, resolve the identifier, and update the page's
anchor list (the `cluster not in [...]` membership test compares handles,
which agrees with the source's dataclass equality since patient ids are
distinct). -/
def linkOne (fz : Fuzz) (S : Settings) (st : LinkState) (anchors : List (Nat × Nat))
    (idx : Nat) (identifier : IdentifierMatch) (page_index : Nat) :
    Except Unit (LinkState × List (Nat × Nat)) := do
  let pf :=
    if !anchors.isEmpty && isSupportiveKind identifier.kind then
      (nearestAnchor idx anchors, true)
    else (none, false)
  let scores ← matchScores fz st.clusters identifier
  let r :=
    assignIdentifierCore S st.clusters scores identifier page_index pf.1 pf.2 st.next_patient
  let anchors' :=
    if isAnchorKind identifier.kind then anchors ++ [(idx, r.1)]
    else if isSupportiveKind identifier.kind then
      if pf.1 = none ∧ r.1 ∉ anchors.map (fun a => a.2) then anchors ++ [(idx, r.1)]
      else anchors
    else anchors
  pure (⟨r.2.1, r.2.2⟩, anchors')

/-- The inner loop of `link` over a page's identifiers, carrying the
enumeration index. -/
def linkIdentifiers (fz : Fuzz) (S : Settings) (page_index : Nat) :
    Nat → List IdentifierMatch → LinkState → List (Nat × Nat) →
    Except Unit (LinkState × List (Nat × Nat))
  | _, [], st, anchors => .ok (st, anchors)
  | idx, identifier :: rest, st, anchors => do
    let r ← linkOne fz S st anchors idx identifier page_index
    linkIdentifiers fz S page_index (idx + 1) rest r.1 r.2

/-- The outer loop of `link` over pages (each page starts with an empty
anchor list). -/
def linkPages (fz : Fuzz) (S : Settings) : List PageEntities → LinkState → Except Unit LinkState
  | [], st => .ok st
  | page :: rest, st => do
    let r ← linkIdentifiers fz S page.page_index 0 page.identifiers st []
    linkPages fz S rest r.1

/-- Python `sorted()` over naturals (ascending insertion sort). -/
def insertNat (x : Nat) : List Nat → List Nat
  | [] => [x]
  | y :: rest => if x < y then x :: y :: rest else y :: insertNat x rest

def sortNat (l : List Nat) : List Nat := l.foldr insertNat []

/-- `PatientEntityLinker._to_linked_patient`: identifiers sorted by kind
string (`"dob" < "mrn" < "name" < "phone"` lexicographically), confidences
and the cluster score rounded to three decimals, pages sorted ascending. -/
def toLinkedPatient (cluster : ClusterCandidate) : LinkedPatient :=
  let sortedIds :=
    [cluster.identifiers.dobId, cluster.identifiers.mrnId,
      cluster.identifiers.nameId, cluster.identifiers.phoneId].filterMap id
  { patient_id := cluster.patient_id
    identifiers := sortedIds.map fun i => { i with confidence := pyRound3 i.confidence }
    pages := sortNat cluster.pages
    score := pyRound3 cluster.score }

/-- `PatientEntityLinker.link` on a freshly constructed linker (patient
counter starting at 1, empty cluster list). -/
def link (fz : Fuzz) (S : Settings) (pages : List PageEntities) :
    Except Unit (List LinkedPatient) := do
  let st ← linkPages fz S pages ⟨[], 1⟩
  pure (st.clusters.map toLinkedPatient)

/-! ## Page assigner (`page_assigner.py`) -/

/-- `pipeline.AssignmentReason`. -/
structure AssignmentReason where
  kind : Kind
  value : String
  score : ℚ
deriving DecidableEq

/-- `pipeline.PageAssignment`. -/
structure PageAssignment where
  page_index : Nat
  patient_id : Option String
  confidence : ℚ
  reasons : List AssignmentReason
  manual_review : Bool
deriving DecidableEq

/-- `pipeline.DocumentAssignmentSummary`. -/
structure DocumentAssignmentSummary where
  assignments : List PageAssignment
  unassigned_pages : List Nat
  ambiguous_pages : List Nat
deriving DecidableEq

/-- `page_assigner.AssignmentScore`. -/
structure AssignmentScore where
  patient_id : String
  score : ℚ
  reasons : List AssignmentReason
deriving DecidableEq

/-- The raw per-kind assignment weight from settings. -/
def rawWeight (S : Settings) : Kind → ℚ
  | .mrn => S.assign_mrn_weight
  | .dob => S.assign_dob_weight
  | .phone => S.assign_phone_weight
  | .name => S.assign_name_weight

/-- `PageAssigner._weights`: renormalize the configured weights to sum to
1, unless their sum is 0, in which case they are used as-is. -/
def weightTotal (S : Settings) : ℚ :=
  S.assign_mrn_weight + S.assign_dob_weight + S.assign_phone_weight + S.assign_name_weight

def weightFor (S : Settings) (k : Kind) : ℚ :=
  if weightTotal S = 0 then rawWeight S k else rawWeight S k / weightTotal S

/-- `PageAssigner._compare` (kind-dispatched scoring; dob can raise). -/
def compareKind (fz : Fuzz) (kind : Kind) (a b : String) : Except Unit ℚ :=
  match kind with
  | .mrn => .ok (scoreMrn fz a b)
  | .dob => scoreDob a b
  | .phone => .ok (scorePhone fz a b)
  | .name => .ok (scoreName fz a b)

/-- Python `best_value or identifier.value`: an empty (falsy) best value
falls back to the page identifier's value. -/
def pyOrValue (best_value : Option String) (fallback : String) : String :=
  match best_value with
  | some v => if v = "" then fallback else v
  | none => fallback

/-- `PageAssigner._score_page`: for each page identifier, the best
similarity against the patient's same-kind identifiers (strictly improving
fold from 0); positive bests contribute `best * weight` and a reason; the
total is clamped to 1 and rounded to three decimals. -/
def scorePage (fz : Fuzz) (S : Settings) (page : PageEntities)
    (patient : LinkedPatient) : Except Unit AssignmentScore := do
  let sr ← page.identifiers.foldlM
    (fun (acc : ℚ × List AssignmentReason) identifier => do
      let sameKind := patient.identifiers.filter fun li => li.kind = identifier.kind
      let bb ← sameKind.foldlM
        (fun (bb : ℚ × Option String) candidate => do
          let current ← compareKind fz identifier.kind identifier.value candidate.value
          pure (if bb.1 < current then (current, some candidate.value) else bb))
        ((0 : ℚ), (none : Option String))
      if 0 < bb.1 then
        let contribution := bb.1 * weightFor S identifier.kind
        pure (acc.1 + contribution,
          acc.2 ++ [⟨identifier.kind, pyOrValue bb.2 identifier.value, pyRound3 contribution⟩])
      else
        pure acc)
    ((0 : ℚ), ([] : List AssignmentReason))
  pure ⟨patient.patient_id, pyRound3 (min sr.1 1), sr.2⟩

/-- Stable descending insertion (`scores.sort(key=..., reverse=True)` is a
stable descending sort): an element is inserted after every element with a
score at least as large. -/
def insertDesc (x : AssignmentScore) : List AssignmentScore → List AssignmentScore
  | [] => [x]
  | y :: rest => if y.score < x.score then x :: y :: rest else y :: insertDesc x rest

def sortScoresDesc (l : List AssignmentScore) : List AssignmentScore :=
  l.foldl (fun acc x => insertDesc x acc) []

/-- The decision tail of `PageAssigner._assign_single_page`, operating on
the already computed per-patient scores: drop zero scores (the source
filters on `score > 0`; the empty-check before sorting and the match on
the sorted list agree because sorting preserves emptiness), rank
descending, flag ambiguity within the margin, then apply the
minimum-confidence rule. -/
def assignFromScores (S : Settings) (page_index : Nat)
    (scores0 : List AssignmentScore) : PageAssignment :=
  match sortScoresDesc (scores0.filter fun s => 0 < s.score) with
  | [] => ⟨page_index, none, 0, [], true⟩
  | top :: rest =>
    let confidence := top.score
    let manual_review :=
      match rest with
      | second :: _ => decide (top.score - second.score ≤ S.assign_ambiguity_margin)
      | [] => false
    if confidence < S.assign_min_confidence then
      ⟨page_index,
        if S.assign_allow_unassigned then none else some top.patient_id,
        confidence,
        if S.assign_allow_unassigned then [] else top.reasons,
        true⟩
    else
      ⟨page_index, some top.patient_id, confidence, top.reasons, manual_review⟩

/-- `PageAssigner._assign_single_page`. -/
def assignSinglePage (fz : Fuzz) (S : Settings) (page : PageEntities)
    (patients : List LinkedPatient) : Except Unit PageAssignment := do
  let scores ← patients.mapM (scorePage fz S page)
  pure (assignFromScores S page.page_index scores)

/-- The page loop of `PageAssigner.assign_pages`: a page whose assignment
has no patient id is appended to `unassigned`; otherwise, when flagged for
manual review, it is appended to `ambiguous`. -/
def assignPagesGo (fz : Fuzz) (S : Settings) (patients : List LinkedPatient) :
    List PageEntities → List PageAssignment → List Nat → List Nat →
    Except Unit DocumentAssignmentSummary
  | [], assignments, unassigned, ambiguous => .ok ⟨assignments, unassigned, ambiguous⟩
  | page :: rest, assignments, unassigned, ambiguous => do
    let result ← assignSinglePage fz S page patients
    let unassigned' :=
      if result.patient_id.isNone then unassigned ++ [page.page_index] else unassigned
    let ambiguous' :=
      if result.patient_id.isSome && result.manual_review then ambiguous ++ [page.page_index]
      else ambiguous
    assignPagesGo fz S patients rest (assignments ++ [result]) unassigned' ambiguous'

/-- `PageAssigner.assign_pages`. -/
def assignPages (fz : Fuzz) (S : Settings) (pages : List PageEntities)
    (patients : List LinkedPatient) : Except Unit DocumentAssignmentSummary :=
  assignPagesGo fz S patients pages [] [] []

section Verification

/- The rational operations are `@[irreducible]` in the library; closed
evaluations below reduce them definitionally, so restore the default
transparency locally. -/
set_option allowUnsafeReducibility true
attribute [local semireducible] Rat.add Rat.mul Rat.sub Rat.inv

/-! ## Shared concrete inputs for closed evaluations -/

/-- A page identifier with a degenerate bounding box and no word indices. -/
def mkIdent (k : Kind) (v : String) (c : ℚ) : IdentifierMatch := ⟨k, v, c, (0, 0, 1, 1), []⟩

/-- A linked identifier with confidence 0.9 and one source on page 0. -/
def mkLinkedId (k : Kind) (v : String) : LinkedIdentifier := ⟨k, v, 9/10, [(0, [])]⟩

def patDobA : LinkedPatient := ⟨"patient_001", [mkLinkedId .dob "01/01/1980"], [0], 9/10⟩

def patDobB : LinkedPatient := ⟨"patient_002", [mkLinkedId .dob "01/01/1980"], [0], 9/10⟩

/-- A page carrying one dob identifier that exactly matches `patDobA` (and
`patDobB`). -/
def pageDob : PageEntities := ⟨0, [mkIdent .dob "01/01/1980" (9/10)]⟩

/-- The default settings with `assign_allow_unassigned = False`. -/
def keepSettings : Settings := { defaultSettings with assign_allow_unassigned := false }

/-! ## Character-level facts about the mrn normalization -/

theorem charToNat_ofNat_valid (n : Nat) (h : n.isValidChar) : (Char.ofNat n).toNat = n := by
  rw [Char.ofNat, dif_pos h]
  rfl

theorem isLower_iff (c : Char) : c.isLower = true ↔ 97 ≤ c.toNat ∧ c.toNat ≤ 122 := by
  simp [Char.isLower, Bool.and_eq_true, decide_eq_true_iff]
  exact ⟨fun ⟨a, b⟩ => ⟨a, b⟩, fun ⟨a, b⟩ => ⟨a, b⟩⟩

theorem isUpper_iff (c : Char) : c.isUpper = true ↔ 65 ≤ c.toNat ∧ c.toNat ≤ 90 := by
  simp [Char.isUpper, Bool.and_eq_true, decide_eq_true_iff]
  exact ⟨fun ⟨a, b⟩ => ⟨a, b⟩, fun ⟨a, b⟩ => ⟨a, b⟩⟩

theorem toLower_toNat_of_upper (c : Char) (h : 65 ≤ c.toNat ∧ c.toNat ≤ 90) :
    (Char.toLower c).toNat = c.toNat + 32 := by
  unfold Char.toLower
  rw [if_pos h]
  exact charToNat_ofNat_valid _ (Or.inl (by omega))

theorem toLower_of_not_upper (c : Char) (h : ¬(65 ≤ c.toNat ∧ c.toNat ≤ 90)) :
    Char.toLower c = c := by
  unfold Char.toLower
  rw [if_neg h]

/-- A character survives `lower` + `[^a-z0-9]`-stripping exactly when it is
ASCII alphanumeric. -/
theorem lower_alnum (c : Char) :
    ((Char.toLower c).isLower || (Char.toLower c).isDigit) = isAsciiAlnum c := by
  unfold isAsciiAlnum
  by_cases h : 65 ≤ c.toNat ∧ c.toNat ≤ 90
  · have hv := toLower_toNat_of_upper c h
    have hl : (Char.toLower c).isLower = true := (isLower_iff _).mpr (by omega)
    have ha : c.isAlpha = true := by
      simp [Char.isAlpha, (isUpper_iff c).mpr h]
    simp [hl, ha]
  · rw [toLower_of_not_upper c h]
    have hu : c.isUpper = false := by
      rcases hb : c.isUpper with _ | _
      · rfl
      · exact absurd ((isUpper_iff c).mp hb) h
    simp [Char.isAlpha, hu]

theorem ClusterIdentifiers.get_set_same (ids : ClusterIdentifiers) (k : Kind)
    (v : LinkedIdentifier) : (ids.set k v).get k = some v := by
  cases k <;> rfl

deriving instance DecidableEq for Except

/-! ## Claim theorems -/

/-- Claim C1 (confirmed): when an identifier is merged into a cluster that
already holds a `LinkedIdentifier` of the same kind, the stored value is
replaced by the new value exactly when the match score passed to the merge
is strictly higher than the stored confidence (ties keep the existing
value); the stored confidence becomes the max of old and new, the new
`(pageIndex, wordIndices)` source is appended, the current page joins the
cluster's page set, and the cluster's aggregate score becomes the max of
its current score and the new identifier's confidence. -/
theorem claim1_linker_merge_rule (cluster : ClusterCandidate) (identifier : IdentifierMatch)
    (page_index : Nat) (score : ℚ) (existing : LinkedIdentifier)
    (hex : cluster.identifiers.get identifier.kind = some existing) :
    (mergeIdentifier cluster identifier page_index score).identifiers.get identifier.kind =
      some { existing with
        value := if existing.confidence < score then identifier.value else existing.value
        confidence := max existing.confidence identifier.confidence
        sources := existing.sources ++ [(page_index, identifier.word_indices)] }
    ∧ (mergeIdentifier cluster identifier page_index score).pages =
        (if page_index ∈ cluster.pages then cluster.pages else cluster.pages ++ [page_index])
    ∧ page_index ∈ (mergeIdentifier cluster identifier page_index score).pages
    ∧ (mergeIdentifier cluster identifier page_index score).score =
        max cluster.score identifier.confidence
    ∧ (mergeIdentifier cluster identifier page_index score).patient_id = cluster.patient_id := by
  unfold mergeIdentifier
  rw [hex]
  refine ⟨ClusterIdentifiers.get_set_same _ _ _, rfl, ?_, rfl, rfl⟩
  by_cases hp : page_index ∈ cluster.pages
  · simp [hp]
  · simp [hp]

/-- Witness for C1: merging a second mrn (confidence 0.8, match score 0.95)
into a fresh cluster whose stored mrn has confidence 0.9. -/
theorem claim1_witness :
    (newCluster (mkIdent Kind.mrn "12345" (9/10)) 0 1).identifiers.get Kind.mrn =
      some ⟨Kind.mrn, "12345", 9/10, [(0, [])]⟩
    ∧ (1 : Nat) ∈ (mergeIdentifier (newCluster (mkIdent Kind.mrn "12345" (9/10)) 0 1)
        (mkIdent Kind.mrn "12345" (8/10)) 1 (95/100)).pages
    ∧ (mergeIdentifier (newCluster (mkIdent Kind.mrn "12345" (9/10)) 0 1)
        (mkIdent Kind.mrn "12345" (8/10)) 1 (95/100)).score = max (9/10) (8/10) :=
  have h := claim1_linker_merge_rule (newCluster (mkIdent Kind.mrn "12345" (9/10)) 0 1)
    (mkIdent Kind.mrn "12345" (8/10)) 1 (95/100) ⟨Kind.mrn, "12345", 9/10, [(0, [])]⟩ rfl
  ⟨rfl, h.2.2.1, h.2.2.2.1⟩

/-- Claim C5 (code bug): the dob scorer is categorical — whenever it
returns, the score is exactly 1 (iff the normalized dates are equal) or
exactly 0 — but it does not return on every pair of strings: a
two-character non-numeric year makes `int(year)` raise `ValueError`
(first conjunct, the failing input). -/
theorem claim5_dob_categorical :
    scoreDob "12/31/xy" "12/31/xy" = Except.error ()
    ∧ ∀ a b q, scoreDob a b = Except.ok q →
        ((q = 1 ∨ q = 0) ∧ (q = 1 ↔ normalizeDob a = normalizeDob b)) := by
  constructor
  · decide
  · intro a b q h
    unfold scoreDob at h
    cases ha : normalizeDob a with
    | error e => rw [ha] at h; simp [Bind.bind, Except.bind] at h
    | ok na =>
      cases hb : normalizeDob b with
      | error e => rw [ha, hb] at h; simp [Bind.bind, Except.bind] at h
      | ok nb =>
        rw [ha, hb] at h
        simp only [Bind.bind, Except.bind, pure, Except.pure, Except.ok.injEq] at h
        subst h
        by_cases hab : na = nb <;> simp [hab]

/-- Witness for C5: the two writings of the same date score exactly 1. -/
theorem claim5_witness :
    ((1 : ℚ) = 1 ∨ (1 : ℚ) = 0)
    ∧ ((1 : ℚ) = 1 ↔ normalizeDob "01-02-1990" = normalizeDob "01/02/1990") :=
  claim5_dob_categorical.2 "01-02-1990" "01/02/1990" 1 (by decide)

/-- Claim C6 (code bug): similarity scoring is not exception-free — at a
pair of equal strings whose year field is the two-character non-numeric
string `"ab"`, `score_dob` raises `ValueError` from `int("ab")` instead of
returning a score. -/
theorem claim6_dob_not_total :
    scoreDob "01/01/ab" "01/01/ab" = Except.error () := by decide

/-- Claim C7 (confirmed): the strict-mode branch of `_assign_identifier`
is unreachable — for every settings value, kind, resolved score list,
preferred cluster and force flag, the branch selector never selects it,
because its guard (a best cluster whose score reaches the name threshold)
is subsumed by the merge-threshold check that runs first. -/
theorem claim7_strict_mode_unreachable (S : Settings) (kind : Kind) (scores : List ℚ)
    (preferred : Option Nat) (force_attach : Bool) :
    assignBranch S kind scores preferred force_attach ≠ Branch.strictSkip := by
  simp only [assignBranch]
  split_ifs with h1 h2 h3
  · simp
  · simp
  · obtain ⟨hsome, hk, hs', _⟩ := h3
    subst hk
    exact absurd ⟨hsome, hs'⟩ h1
  · simp

/-- Witness for C7 at a concrete input. -/
theorem claim7_witness :
    assignBranch defaultSettings Kind.name [(9 : ℚ)/10] none false ≠ Branch.strictSkip :=
  claim7_strict_mode_unreachable defaultSettings Kind.name [(9 : ℚ)/10] none false

/-- Claim C8 (corrected): at the extraction stage the dob normalization
replaces only `'.'` by `'/'` — no `'.'` survives — while `'-'` is left
unchanged; the example values `"01-02-1990"` and `"01/02/1990"` are
equated only later, by the matcher's dob normalization. -/
theorem claim8_extraction_dob (v : String) :
    '.' ∉ (normalizeValue Kind.dob v).data
    ∧ normalizeDob "01-02-1990" = normalizeDob "01/02/1990" := by
  constructor
  · unfold normalizeValue pyReplaceChar
    intro hmem
    simp only [List.mem_map] at hmem
    obtain ⟨x, _, hx⟩ := hmem
    by_cases hd : x = '.'
    · simp [hd] at hx
    · simp [hd] at hx
  · decide

/-- Witness for C8 at a concrete input. -/
theorem claim8_witness :
    '.' ∉ (normalizeValue Kind.dob "01.02.1990").data
    ∧ normalizeDob "01-02-1990" = normalizeDob "01/02/1990" :=
  claim8_extraction_dob "01.02.1990"

/-- Counterexample to C8 as stated: `"01-02-1990"` and `"01/02/1990"` do
not normalize to the same string at the extraction stage (the `-`
separator is not replaced there). -/
theorem claim8_counterexample :
    normalizeValue Kind.dob "01-02-1990" = "01-02-1990"
    ∧ normalizeValue Kind.dob "01/02/1990" = "01/02/1990"
    ∧ normalizeValue Kind.dob "01-02-1990" ≠ normalizeValue Kind.dob "01/02/1990" :=
  ⟨by decide, by decide, by decide⟩

/-- Claim C10 (confirmed): `score_mrn(a, a)` is 1 exactly when `a`
contains at least one ASCII alphanumeric character, and 0 when it contains
none (the empty-normalization edge case is not reflexively 1). -/
theorem claim10_mrn_self_similarity (fz : Fuzz) (a : String) :
    scoreMrn fz a a = if a.data.any isAsciiAlnum then 1 else 0 := by
  have hfm : normalizeMrn a = ⟨(a.data.filter isAsciiAlnum).map Char.toLower⟩ := by
    unfold normalizeMrn
    refine congrArg String.mk ?_
    rw [List.filter_map]
    exact congrArg _ (List.filter_congr fun c _ => lower_alnum c)
  unfold scoreMrn
  rw [hfm]
  by_cases hany : a.data.any isAsciiAlnum
  · have hne : a.data.filter isAsciiAlnum ≠ [] := by
      rw [List.any_eq_true] at hany
      obtain ⟨c, hc, hpc⟩ := hany
      intro hnil
      exact absurd (List.mem_filter.mpr ⟨hc, hpc⟩) (by simp [hnil])
    have hns : (⟨(a.data.filter isAsciiAlnum).map Char.toLower⟩ : String) ≠ "" := by
      intro he
      have hd : (a.data.filter isAsciiAlnum).map Char.toLower = [] := congrArg String.data he
      exact hne (List.eq_nil_of_map_eq_nil hd)
    simp [hns, hany]
  · have hnil : a.data.filter isAsciiAlnum = [] := by
      rw [List.filter_eq_nil_iff]
      intro c hc
      rw [List.any_eq_true] at hany
      push_neg at hany
      simpa using hany c hc
    simp [hnil, hany]

/-! ## Properties of the assigner's descending sort -/

theorem insertDesc_perm (x : AssignmentScore) (l : List AssignmentScore) :
    (insertDesc x l).Perm (x :: l) := by
  induction l with
  | nil => exact List.Perm.refl _
  | cons y rest ih =>
    unfold insertDesc
    by_cases h : y.score < x.score
    · rw [if_pos h]
    · rw [if_neg h]
      exact (ih.cons y).trans (List.Perm.swap x y rest)

theorem sortAux_perm (l : List AssignmentScore) :
    ∀ acc, (l.foldl (fun acc x => insertDesc x acc) acc).Perm (acc ++ l) := by
  induction l with
  | nil => intro acc; simp
  | cons x rest ih =>
    intro acc
    refine (ih (insertDesc x acc)).trans ?_
    refine ((insertDesc_perm x acc).append_right rest).trans ?_
    exact List.perm_middle.symm

theorem sortScoresDesc_perm (l : List AssignmentScore) : (sortScoresDesc l).Perm l := by
  simpa using sortAux_perm l []

theorem insertDesc_sorted (x : AssignmentScore) (l : List AssignmentScore)
    (hl : l.Pairwise fun a b => b.score ≤ a.score) :
    (insertDesc x l).Pairwise fun a b => b.score ≤ a.score := by
  induction l with
  | nil => simp [insertDesc]
  | cons y rest ih =>
    rcases hl with _ | ⟨hy, hrest⟩
    unfold insertDesc
    by_cases h : y.score < x.score
    · rw [if_pos h]
      refine List.Pairwise.cons ?_ (List.Pairwise.cons hy hrest)
      intro b hb
      rcases List.mem_cons.mp hb with rfl | hb'
      · exact le_of_lt h
      · exact le_trans (hy b hb') (le_of_lt h)
    · rw [if_neg h]
      refine List.Pairwise.cons ?_ (ih hrest)
      intro b hb
      rcases List.mem_cons.mp ((insertDesc_perm x rest).mem_iff.mp hb) with rfl | hb'
      · exact le_of_not_lt h
      · exact hy b hb'

theorem sortAux_sorted (l : List AssignmentScore) :
    ∀ acc, (acc.Pairwise fun a b => b.score ≤ a.score) →
      ((l.foldl (fun acc x => insertDesc x acc) acc).Pairwise fun a b => b.score ≤ a.score) := by
  induction l with
  | nil => intro acc hacc; simpa using hacc
  | cons x rest ih => intro acc hacc; exact ih (insertDesc x acc) (insertDesc_sorted x acc hacc)

theorem sortScoresDesc_sorted (l : List AssignmentScore) :
    (sortScoresDesc l).Pairwise fun a b => b.score ≤ a.score :=
  sortAux_sorted l [] (by simp)

/-- The head of the sorted list bounds every score in the input list. -/
theorem sortScoresDesc_head_max (l : List AssignmentScore) (t : AssignmentScore)
    (rest : List AssignmentScore) (h : sortScoresDesc l = t :: rest) :
    ∀ s ∈ l, s.score ≤ t.score := by
  intro s hs
  have hmem : s ∈ t :: rest := h ▸ (sortScoresDesc_perm l).mem_iff.mpr hs
  rcases List.mem_cons.mp hmem with rfl | hb'
  · exact le_refl _
  · have hp := sortScoresDesc_sorted l
    rw [h] at hp
    rcases hp with _ | ⟨ht, _⟩
    exact ht s hb'

/-- The head of the sorted positive-score list is itself positive. -/
theorem sortScoresDesc_head_pos (l : List AssignmentScore) (t : AssignmentScore)
    (rest : List AssignmentScore)
    (h : sortScoresDesc (l.filter fun s => 0 < s.score) = t :: rest) : 0 < t.score := by
  have hmem : t ∈ sortScoresDesc (l.filter fun s => 0 < s.score) := by
    rw [h]; exact List.mem_cons_self t rest
  have := (sortScoresDesc_perm _).mem_iff.mp hmem
  simpa using (List.mem_filter.mp this).2

/-! ## Claims about the page assigner -/

/-- Claim C2 (corrected): for a page whose top positive cluster score is
below the minimum assignment confidence, the assignment has
`manualReview = true`; the patient id is absent and the reasons list is
empty when `assign_allow_unassigned` is true; when it is false, the top
cluster's patient id is kept together with the top cluster's reasons
(the reasons are kept, not dropped). -/
theorem claim2_min_confidence (fz : Fuzz) (S : Settings) (page : PageEntities)
    (patients : List LinkedPatient) (scores : List AssignmentScore)
    (t : AssignmentScore) (rest : List AssignmentScore)
    (hs : patients.mapM (scorePage fz S page) = .ok scores)
    (hsort : sortScoresDesc (scores.filter fun s => 0 < s.score) = t :: rest)
    (hlow : t.score < S.assign_min_confidence) :
    0 < t.score
    ∧ (∀ s ∈ scores, s.score ≤ t.score)
    ∧ assignSinglePage fz S page patients = .ok
        { page_index := page.page_index
          patient_id := if S.assign_allow_unassigned then none else some t.patient_id
          confidence := t.score
          reasons := if S.assign_allow_unassigned then [] else t.reasons
          manual_review := true } := by
  have htpos := sortScoresDesc_head_pos scores t rest hsort
  refine ⟨htpos, ?_, ?_⟩
  · intro s hsmem
    by_cases hpos : 0 < s.score
    · exact sortScoresDesc_head_max _ t rest hsort s (List.mem_filter.mpr ⟨hsmem, by simpa using hpos⟩)
    · exact le_trans (le_of_not_lt hpos) (le_of_lt htpos)
  · unfold assignSinglePage
    rw [hs]
    simp only [Bind.bind, Except.bind, pure, Except.pure, Except.ok.injEq]
    unfold assignFromScores
    rw [hsort]
    simp only [if_pos hlow]

/-- Witness score record for the C2 and C4 evaluations. -/
def tW : AssignmentScore := ⟨"patient_001", 1/5, [⟨Kind.dob, "01/01/1980", 1/5⟩]⟩

/-- Witness for C2 at a concrete low-confidence page. -/
theorem claim2_witness :
    0 < tW.score
    ∧ (∀ s ∈ [tW], s.score ≤ tW.score)
    ∧ assignSinglePage fuzzZero keepSettings pageDob [patDobA] = .ok
        { page_index := pageDob.page_index
          patient_id := if keepSettings.assign_allow_unassigned then none else some tW.patient_id
          confidence := tW.score
          reasons := if keepSettings.assign_allow_unassigned then [] else tW.reasons
          manual_review := true } :=
  claim2_min_confidence fuzzZero keepSettings pageDob [patDobA] [tW] tW []
    (by decide) (by decide) (by decide)

/-- Counterexample to C2 as stated: with `assign_allow_unassigned = False`
and a positive top score below the minimum confidence, the emitted reasons
list is the top cluster's (nonempty) reasons, not the empty list the claim
demands. -/
theorem claim2_counterexample :
    (1 : ℚ)/5 < keepSettings.assign_min_confidence
    ∧ keepSettings.assign_allow_unassigned = false
    ∧ assignSinglePage fuzzZero keepSettings pageDob [patDobA] = .ok
        { page_index := 0
          patient_id := some "patient_001"
          confidence := 1/5
          reasons := [⟨Kind.dob, "01/01/1980", 1/5⟩]
          manual_review := true }
    ∧ ([⟨Kind.dob, "01/01/1980", 1/5⟩] : List AssignmentReason) ≠ [] :=
  ⟨by decide, rfl, by decide, by decide⟩

/-- The assignment carried into the accumulators stays in the summary. -/
theorem assignPagesGo_subset (fz : Fuzz) (S : Settings) (patients : List LinkedPatient) :
    ∀ (pages : List PageEntities) (assignments : List PageAssignment)
      (unassigned ambiguous : List Nat) (summary : DocumentAssignmentSummary),
      assignPagesGo fz S patients pages assignments unassigned ambiguous = .ok summary →
      (∀ i ∈ unassigned, i ∈ summary.unassigned_pages)
      ∧ ∀ i ∈ ambiguous, i ∈ summary.ambiguous_pages := by
  intro pages
  induction pages with
  | nil =>
    intro as un amb summary h
    unfold assignPagesGo at h
    rw [Except.ok.injEq] at h
    subst h
    exact ⟨fun i hi => hi, fun i hi => hi⟩
  | cons page rest ih =>
    intro as un amb summary h
    unfold assignPagesGo at h
    cases hr : assignSinglePage fz S page patients with
    | error e => rw [hr] at h; simp [Bind.bind, Except.bind] at h
    | ok r =>
      rw [hr] at h
      simp only [Bind.bind, Except.bind] at h
      have := ih _ _ _ _ h
      constructor
      · intro i hi
        refine this.1 i ?_
        by_cases hc : r.patient_id.isNone <;> simp [hc, List.mem_append, hi]
      · intro i hi
        refine this.2 i ?_
        by_cases hc : (r.patient_id.isSome && r.manual_review) = true <;>
          simp [hc, List.mem_append, hi]

/-- Classification of each processed page into the summary's lists. -/
theorem assignPagesGo_mem (fz : Fuzz) (S : Settings) (patients : List LinkedPatient) :
    ∀ (pages : List PageEntities) (assignments : List PageAssignment)
      (unassigned ambiguous : List Nat) (summary : DocumentAssignmentSummary)
      (page : PageEntities) (r : PageAssignment),
      assignPagesGo fz S patients pages assignments unassigned ambiguous = .ok summary →
      page ∈ pages →
      assignSinglePage fz S page patients = .ok r →
      (r.patient_id = none → page.page_index ∈ summary.unassigned_pages)
      ∧ (r.patient_id ≠ none → r.manual_review = true →
          page.page_index ∈ summary.ambiguous_pages) := by
  intro pages
  induction pages with
  | nil => intro _ _ _ _ _ _ _ hmem _; exact absurd hmem (List.not_mem_nil _)
  | cons p rest ih =>
    intro as un amb summary page r h hmem hr
    unfold assignPagesGo at h
    cases hp : assignSinglePage fz S p patients with
    | error e => rw [hp] at h; simp [Bind.bind, Except.bind] at h
    | ok r0 =>
      rw [hp] at h
      simp only [Bind.bind, Except.bind] at h
      rcases List.mem_cons.mp hmem with rfl | hmem'
      · have hr0 : r0 = r := by rw [hp] at hr; exact (Except.ok.injEq _ _).mp hr
        subst hr0
        have hsub := assignPagesGo_subset fz S patients rest _ _ _ summary h
        constructor
        · intro hnone
          refine hsub.1 page.page_index ?_
          simp [hnone]
        · intro hsome hmr
          refine hsub.2 page.page_index ?_
          have : r0.patient_id.isSome = true := by
            cases hc : r0.patient_id with
            | none => exact absurd hc hsome
            | some v => rfl
          simp [this, hmr]
      · exact ih _ _ _ _ page r h hmem' hr

/-- Claim C4 (corrected): for a page with at least two positive cluster
scores whose top two differ by no more than the ambiguity margin, the
page's assignment has `manualReview = true`; its index appears in
`ambiguous_pages` when a patient id is assigned, and in `unassigned_pages`
(not `ambiguous_pages`) when the patient id is absent. -/
theorem claim4_ambiguity_flag (fz : Fuzz) (S : Settings) (pages : List PageEntities)
    (patients : List LinkedPatient) (summary : DocumentAssignmentSummary)
    (page : PageEntities) (scores : List AssignmentScore)
    (t s2 : AssignmentScore) (rest : List AssignmentScore)
    (hassign : assignPages fz S pages patients = .ok summary)
    (hpage : page ∈ pages)
    (hs : patients.mapM (scorePage fz S page) = .ok scores)
    (hsort : sortScoresDesc (scores.filter fun s => 0 < s.score) = t :: s2 :: rest)
    (hmargin : t.score - s2.score ≤ S.assign_ambiguity_margin) :
    ∃ r, assignSinglePage fz S page patients = .ok r
      ∧ r.manual_review = true
      ∧ (r.patient_id ≠ none → page.page_index ∈ summary.ambiguous_pages)
      ∧ (r.patient_id = none → page.page_index ∈ summary.unassigned_pages) := by
  have hr : assignSinglePage fz S page patients =
      .ok (assignFromScores S page.page_index scores) := by
    unfold assignSinglePage
    rw [hs]
    rfl
  have hmr : (assignFromScores S page.page_index scores).manual_review = true := by
    unfold assignFromScores
    rw [hsort]
    by_cases hc : t.score < S.assign_min_confidence
    · simp [hc]
    · simp [hc, hmargin]
  have hmem := assignPagesGo_mem fz S patients pages [] [] [] summary page
    (assignFromScores S page.page_index scores) hassign hpage hr
  exact ⟨assignFromScores S page.page_index scores, hr, hmr,
    fun hsome => hmem.2 hsome hmr, hmem.1⟩

/-- Witness for C4 at a concrete ambiguous page (two clusters tied). -/
theorem claim4_witness :
    ∃ r, assignSinglePage fuzzZero defaultSettings pageDob [patDobA, patDobB] = .ok r
      ∧ r.manual_review = true
      ∧ (r.patient_id ≠ none →
          (0 : Nat) ∈ (DocumentAssignmentSummary.mk [⟨0, none, 1/5, [], true⟩] [0] []).ambiguous_pages)
      ∧ (r.patient_id = none →
          (0 : Nat) ∈ (DocumentAssignmentSummary.mk [⟨0, none, 1/5, [], true⟩] [0] []).unassigned_pages) :=
  claim4_ambiguity_flag fuzzZero defaultSettings [pageDob] [patDobA, patDobB]
    (DocumentAssignmentSummary.mk [⟨0, none, 1/5, [], true⟩] [0] []) pageDob
    [tW, ⟨"patient_002", 1/5, [⟨Kind.dob, "01/01/1980", 1/5⟩]⟩]
    tW ⟨"patient_002", 1/5, [⟨Kind.dob, "01/01/1980", 1/5⟩]⟩ []
    (by decide) (by decide) (by decide) (by decide) (by decide)

/-- Counterexample to C4 as stated: two clusters tie (margin satisfied,
both positive) yet the page lands in `unassigned_pages` and
`ambiguous_pages` stays empty, because the unassigned check runs first in
`assign_pages`. -/
theorem claim4_counterexample :
    [patDobA, patDobB].mapM (scorePage fuzzZero defaultSettings pageDob) =
      .ok [⟨"patient_001", 1/5, [⟨Kind.dob, "01/01/1980", 1/5⟩]⟩,
        ⟨"patient_002", 1/5, [⟨Kind.dob, "01/01/1980", 1/5⟩]⟩]
    ∧ (1 : ℚ)/5 - 1/5 ≤ defaultSettings.assign_ambiguity_margin
    ∧ assignPages fuzzZero defaultSettings [pageDob] [patDobA, patDobB] =
        .ok ⟨[⟨0, none, 1/5, [], true⟩], [0], []⟩ :=
  ⟨by decide, by decide, by decide⟩

/-! ## Properties of the linker's best-cluster fold -/

theorem accScore_pos (acc : Option (Nat × ℚ)) (hpos : ∀ j b, acc = some (j, b) → 0 < b) :
    0 ≤ accScore acc := by
  cases hacc : acc with
  | none => exact le_refl 0
  | some jb => exact le_of_lt (hpos jb.1 jb.2 (by rw [hacc]))

theorem bestOfAux_spec : ∀ (l : List ℚ) (i : Nat) (acc : Option (Nat × ℚ)) (h : Nat) (s : ℚ),
    (∀ j b, acc = some (j, b) → 0 < b) →
    bestOfAux l i acc = some (h, s) →
    0 < s ∧ (∀ x ∈ l, x ≤ s) ∧ (∀ j b, acc = some (j, b) → b ≤ s) := by
  intro l
  induction l with
  | nil =>
    intro i acc h s hpos hres
    unfold bestOfAux at hres
    subst hres
    refine ⟨hpos h s rfl, fun x hx => absurd hx (List.not_mem_nil x), ?_⟩
    intro j b hacc
    injection hacc with hjb
    exact le_of_eq (congrArg Prod.snd hjb.symm)
  | cons x rest ih =>
    intro i acc h s hpos hres
    unfold bestOfAux at hres
    have hbs0 : 0 ≤ accScore acc := accScore_pos acc hpos
    by_cases hlt : accScore acc < x
    · rw [if_pos hlt] at hres
      have hpos' : ∀ j b, (some (i, x) : Option (Nat × ℚ)) = some (j, b) → 0 < b := by
        intro j b hjb
        injection hjb with hjb'
        have hb : x = b := congrArg Prod.snd hjb'
        exact hb ▸ lt_of_le_of_lt hbs0 hlt
      obtain ⟨hspos, h1, h2⟩ := ih (i + 1) _ h s hpos' hres
      refine ⟨hspos, ?_, ?_⟩
      · intro y hy
        rcases List.mem_cons.mp hy with rfl | hy'
        · exact h2 i y rfl
        · exact h1 y hy'
      · intro j b hacc
        refine le_trans ?_ (h2 i x rfl)
        have hb : accScore acc = b := by rw [hacc]; rfl
        exact le_of_lt (hb ▸ hlt)
    · rw [if_neg hlt] at hres
      obtain ⟨hspos, h1, h2⟩ := ih (i + 1) _ h s hpos hres
      refine ⟨hspos, ?_, h2⟩
      intro y hy
      rcases List.mem_cons.mp hy with rfl | hy'
      · cases hacc : acc with
        | none =>
          have hz : accScore acc = 0 := by rw [hacc]; rfl
          exact le_trans (le_of_not_lt (hz ▸ hlt)) (le_of_lt hspos)
        | some jb =>
          have hb : accScore acc = jb.2 := by rw [hacc]; rfl
          exact le_trans (le_of_not_lt (hb ▸ hlt)) (h2 jb.1 jb.2 (by rw [hacc]))
      · exact h1 y hy'

theorem bestOfAux_get : ∀ (l : List ℚ) (i : Nat) (acc : Option (Nat × ℚ)) (h : Nat) (s : ℚ),
    bestOfAux l i acc = some (h, s) →
    acc = some (h, s) ∨ ∃ k, h = i + k ∧ l.get? k = some s := by
  intro l
  induction l with
  | nil =>
    intro i acc h s hres
    unfold bestOfAux at hres
    exact Or.inl hres
  | cons x rest ih =>
    intro i acc h s hres
    unfold bestOfAux at hres
    by_cases hlt : accScore acc < x
    · rw [if_pos hlt] at hres
      rcases ih (i + 1) _ h s hres with hacc | ⟨k, hk, hget⟩
      · injection hacc with hacc'
        have hh : i = h := congrArg Prod.fst hacc'
        have hs : x = s := congrArg Prod.snd hacc'
        refine Or.inr ⟨0, by omega, ?_⟩
        simp [hs]
      · exact Or.inr ⟨k + 1, by omega, by simpa using hget⟩
    · rw [if_neg hlt] at hres
      rcases ih (i + 1) _ h s hres with hacc | ⟨k, hk, hget⟩
      · exact Or.inl hacc
      · exact Or.inr ⟨k + 1, by omega, by simpa using hget⟩

theorem bestOfAux_isSome : ∀ (l : List ℚ) (i : Nat) (acc : Option (Nat × ℚ)),
    acc.isSome = true → (bestOfAux l i acc).isSome = true := by
  intro l
  induction l with
  | nil => intro i acc h; unfold bestOfAux; exact h
  | cons x rest ih =>
    intro i acc h
    unfold bestOfAux
    by_cases hlt : accScore acc < x
    · rw [if_pos hlt]; exact ih (i + 1) _ rfl
    · rw [if_neg hlt]; exact ih (i + 1) _ h

theorem bestOfAux_some : ∀ (l : List ℚ) (i : Nat) (acc : Option (Nat × ℚ)),
    (∃ x ∈ l, 0 < x) → (bestOfAux l i acc).isSome = true := by
  intro l
  induction l with
  | nil => intro i acc ⟨x, hx, _⟩; exact absurd hx (List.not_mem_nil x)
  | cons y rest ih =>
    intro i acc ⟨x, hx, hxpos⟩
    unfold bestOfAux
    by_cases hlt : accScore acc < y
    · rw [if_pos hlt]; exact bestOfAux_isSome rest (i + 1) _ rfl
    · rw [if_neg hlt]
      rcases List.mem_cons.mp hx with rfl | hx'
      · cases hacc : acc with
        | none =>
          rw [hacc] at hlt
          exact absurd hxpos (by simpa [accScore] using hlt)
        | some jb => exact bestOfAux_isSome rest (i + 1) _ rfl
      · exact ih (i + 1) _ ⟨x, hx', hxpos⟩

/-- The fold of `_assign_identifier` returns the first index of the
maximal (positive) score. -/
theorem bestOf_spec (l : List ℚ) (h : Nat) (s : ℚ) (hb : bestOf l = some (h, s)) :
    0 < s ∧ (∀ x ∈ l, x ≤ s) ∧ l.get? h = some s := by
  obtain ⟨hp, hle, _⟩ := bestOfAux_spec l 0 none h s (by intro j b hjb; cases hjb) hb
  refine ⟨hp, hle, ?_⟩
  rcases bestOfAux_get l 0 none h s hb with hacc | ⟨k, hk, hget⟩
  · cases hacc
  · simpa [show k = h by omega] using hget

theorem bestOf_some (l : List ℚ) (x : ℚ) (hx : x ∈ l) (hxpos : 0 < x) :
    ∃ h s, bestOf l = some (h, s) := by
  have := bestOfAux_some l 0 none ⟨x, hx, hxpos⟩
  cases hb : bestOf l with
  | none => rw [show bestOf l = bestOfAux l 0 none from rfl] at hb; rw [hb] at this; cases this
  | some hs => exact ⟨hs.1, hs.2, rfl⟩

/-! ## Reduction lemmas for the resolution step -/

theorem assignBranch_merge (S : Settings) (kind : Kind) (scores : List ℚ)
    (preferred : Option Nat) (force_attach : Bool) (h : Nat) (s : ℚ)
    (hb : bestOf scores = some (h, s)) (hth : thresholdFor S kind ≤ s) :
    assignBranch S kind scores preferred force_attach = Branch.merge := by
  unfold assignBranch
  rw [hb]
  rw [if_pos ⟨rfl, hth⟩]

theorem assignIdentifierCore_eq_merge (S : Settings) (clusters : List ClusterCandidate)
    (scores : List ℚ) (identifier : IdentifierMatch) (page_index : Nat)
    (preferred : Option Nat) (force_attach : Bool) (next : Nat) (h : Nat) (s : ℚ)
    (hb : bestOf scores = some (h, s)) (hth : thresholdFor S identifier.kind ≤ s) :
    assignIdentifierCore S clusters scores identifier page_index preferred force_attach next =
      (h, mergeAt clusters h identifier page_index s, next) := by
  unfold assignIdentifierCore
  rw [assignBranch_merge S identifier.kind scores preferred force_attach h s hb hth, hb]

theorem assignBranch_attach (S : Settings) (kind : Kind) (scores : List ℚ) (p : Nat)
    (hnm : ¬((bestOf scores).isSome = true ∧ thresholdFor S kind ≤ bestScore (bestOf scores))) :
    assignBranch S kind scores (some p) true = Branch.attach := by
  unfold assignBranch
  rw [if_neg hnm]
  rfl

theorem assignIdentifierCore_eq_attach (S : Settings) (clusters : List ClusterCandidate)
    (scores : List ℚ) (identifier : IdentifierMatch) (page_index : Nat) (p : Nat) (next : Nat)
    (hnm : ¬((bestOf scores).isSome = true ∧
      thresholdFor S identifier.kind ≤ bestScore (bestOf scores))) :
    assignIdentifierCore S clusters scores identifier page_index (some p) true next =
      (p, mergeAt clusters p identifier page_index (bestScore (bestOf scores)), next) := by
  unfold assignIdentifierCore
  rw [assignBranch_attach S identifier.kind scores p hnm]

theorem assignBranch_create (S : Settings) (kind : Kind) (scores : List ℚ)
    (preferred : Option Nat) (force_attach : Bool)
    (hnm : ¬((bestOf scores).isSome = true ∧ thresholdFor S kind ≤ bestScore (bestOf scores)))
    (hna : ¬((preferred.isSome && force_attach) = true))
    (hns : ¬((bestOf scores).isSome = true ∧ kind = Kind.name ∧
      S.name_match_threshold ≤ bestScore (bestOf scores) ∧ S.linker_strict_mode = true)) :
    assignBranch S kind scores preferred force_attach = Branch.create := by
  unfold assignBranch
  rw [if_neg hnm, if_neg hna, if_neg hns, if_neg hnm]

theorem assignIdentifierCore_eq_create (S : Settings) (clusters : List ClusterCandidate)
    (scores : List ℚ) (identifier : IdentifierMatch) (page_index : Nat)
    (preferred : Option Nat) (force_attach : Bool) (next : Nat)
    (hnm : ¬((bestOf scores).isSome = true ∧
      thresholdFor S identifier.kind ≤ bestScore (bestOf scores)))
    (hna : ¬((preferred.isSome && force_attach) = true))
    (hns : ¬((bestOf scores).isSome = true ∧ identifier.kind = Kind.name ∧
      S.name_match_threshold ≤ bestScore (bestOf scores) ∧ S.linker_strict_mode = true)) :
    assignIdentifierCore S clusters scores identifier page_index preferred force_attach next =
      (clusters.length, clusters ++ [newCluster identifier page_index next], next + 1) := by
  unfold assignIdentifierCore
  rw [assignBranch_create S identifier.kind scores preferred force_attach hnm hna hns]

/-! ## Anchor lemmas -/

theorem maxByFst_isSome (l : List (Nat × Nat)) (h : l ≠ []) : (maxByFst l).isSome = true := by
  cases l with
  | nil => exact absurd rfl h
  | cons x rest =>
    unfold maxByFst
    cases maxByFst rest <;> rfl

theorem minByFst_isSome (l : List (Nat × Nat)) (h : l ≠ []) : (minByFst l).isSome = true := by
  cases l with
  | nil => exact absurd rfl h
  | cons x rest =>
    unfold minByFst
    cases minByFst rest <;> rfl

theorem nearestAnchor_some (idx : Nat) (anchors : List (Nat × Nat)) (h : anchors ≠ []) :
    ∃ p, nearestAnchor idx anchors = some p := by
  unfold nearestAnchor
  cases hm : maxByFst (anchors.filter fun a => a.1 ≤ idx) with
  | some a => exact ⟨a.2, rfl⟩
  | none =>
    have hmin := minByFst_isSome anchors h
    cases hmin2 : minByFst anchors with
    | none => rw [hmin2] at hmin; cases hmin
    | some a => exact ⟨a.2, rfl⟩

/-- When every recorded anchor precedes the current position, the nearest
anchor is the one with maximal position. -/
theorem nearestAnchor_preceding (idx : Nat) (anchors : List (Nat × Nat)) (h : anchors ≠ [])
    (hanch : ∀ a ∈ anchors, a.1 < idx) :
    nearestAnchor idx anchors = (maxByFst anchors).map fun a => a.2 := by
  unfold nearestAnchor
  have hf : (anchors.filter fun a => a.1 ≤ idx) = anchors :=
    List.filter_eq_self.mpr fun a ha => by simpa using le_of_lt (hanch a ha)
  rw [hf]
  cases hm : maxByFst anchors with
  | some a => rfl
  | none =>
    have := maxByFst_isSome anchors h
    rw [hm] at this
    cases this

theorem supportive_not_anchor (k : Kind) (h : isSupportiveKind k = true) :
    isAnchorKind k = false := by
  cases k <;> first | rfl | (exact absurd h (by simp [isSupportiveKind]))

/-- Claim C3 (confirmed): resolution precedence for one identifier within
a page scan (positive merge threshold, anchors recorded at earlier
positions): (1) when some existing cluster's same-kind similarity meets
the kind's merge threshold, the identifier is merged into the
best-scoring such cluster, regardless of anchors; (2) otherwise a
supportive-kind identifier with at least one recorded anchor or
pseudo-anchor is force-attached to the nearest preceding anchor's
cluster; (3) otherwise a brand-new cluster seeded with this identifier
alone is appended and the patient counter advances. -/
theorem claim3_resolution_precedence (fz : Fuzz) (S : Settings) (st : LinkState)
    (anchors : List (Nat × Nat)) (idx : Nat) (identifier : IdentifierMatch) (page_index : Nat)
    (scores : List ℚ)
    (hscores : matchScores fz st.clusters identifier = .ok scores)
    (hth : 0 < thresholdFor S identifier.kind)
    (hanch : ∀ a ∈ anchors, a.1 < idx) :
    ((∃ x ∈ scores, thresholdFor S identifier.kind ≤ x) →
      ∃ h s, bestOf scores = some (h, s) ∧ scores.get? h = some s
        ∧ (∀ x ∈ scores, x ≤ s) ∧ thresholdFor S identifier.kind ≤ s
        ∧ Except.map (fun r => r.1) (linkOne fz S st anchors idx identifier page_index) =
            .ok ⟨mergeAt st.clusters h identifier page_index s, st.next_patient⟩)
    ∧ ((¬∃ x ∈ scores, thresholdFor S identifier.kind ≤ x) →
        isSupportiveKind identifier.kind = true → anchors ≠ [] →
      ∃ p, nearestAnchor idx anchors = some p
        ∧ nearestAnchor idx anchors = (maxByFst anchors).map (fun a => a.2)
        ∧ linkOne fz S st anchors idx identifier page_index =
            .ok (⟨mergeAt st.clusters p identifier page_index (bestScore (bestOf scores)),
              st.next_patient⟩, anchors))
    ∧ ((¬∃ x ∈ scores, thresholdFor S identifier.kind ≤ x) →
        ¬(isSupportiveKind identifier.kind = true ∧ anchors ≠ []) →
      Except.map (fun r => r.1) (linkOne fz S st anchors idx identifier page_index) =
        .ok ⟨st.clusters ++ [newCluster identifier page_index st.next_patient],
          st.next_patient + 1⟩) := by
  have hnm : (¬∃ x ∈ scores, thresholdFor S identifier.kind ≤ x) →
      ¬((bestOf scores).isSome = true ∧
        thresholdFor S identifier.kind ≤ bestScore (bestOf scores)) := by
    intro hnex ⟨h1, h2⟩
    cases hb : bestOf scores with
    | none => rw [hb] at h1; cases h1
    | some hs =>
      obtain ⟨_, _, hget⟩ := bestOf_spec scores hs.1 hs.2 hb
      rw [hb] at h2
      exact hnex ⟨hs.2, List.get?_mem hget, h2⟩
  refine ⟨?_, ?_, ?_⟩
  · rintro ⟨x, hx, hxth⟩
    obtain ⟨h, s, hb⟩ := bestOf_some scores x hx (lt_of_lt_of_le hth hxth)
    obtain ⟨hspos, hmax, hget⟩ := bestOf_spec scores h s hb
    have hsth : thresholdFor S identifier.kind ≤ s := le_trans hxth (hmax x hx)
    refine ⟨h, s, hb, hget, hmax, hsth, ?_⟩
    unfold linkOne
    rw [hscores]
    simp only [Bind.bind, Except.bind, pure, Except.pure]
    rw [assignIdentifierCore_eq_merge S st.clusters scores identifier page_index _ _
      st.next_patient h s hb hsth]
    rfl
  · intro hnex hsupp hne
    obtain ⟨p, hp⟩ := nearestAnchor_some idx anchors hne
    refine ⟨p, hp, nearestAnchor_preceding idx anchors hne hanch, ?_⟩
    unfold linkOne
    rw [hscores]
    simp only [Bind.bind, Except.bind, pure, Except.pure]
    have hcond : (!anchors.isEmpty && isSupportiveKind identifier.kind) = true := by
      simp [hsupp, List.isEmpty_iff, hne]
    rw [if_pos hcond, hp]
    rw [assignIdentifierCore_eq_attach S st.clusters scores identifier page_index p
      st.next_patient (hnm hnex)]
    simp [supportive_not_anchor identifier.kind hsupp, hsupp]
  · intro hnex hno
    have hpf : (!anchors.isEmpty && isSupportiveKind identifier.kind) = false := by
      by_cases hsupp : isSupportiveKind identifier.kind = true
      · have hae : anchors = [] := by
          by_contra hne
          exact hno ⟨hsupp, hne⟩
        simp [hae]
      · simp [Bool.eq_false_iff.mpr hsupp]
    unfold linkOne
    rw [hscores]
    simp only [Bind.bind, Except.bind, pure, Except.pure]
    rw [if_neg (by simp [hpf])]
    have hns : ¬((bestOf scores).isSome = true ∧ identifier.kind = Kind.name ∧
        S.name_match_threshold ≤ bestScore (bestOf scores) ∧ S.linker_strict_mode = true) := by
      rintro ⟨h1, hk, h2, _⟩
      cases hb : bestOf scores with
      | none => rw [hb] at h1; cases h1
      | some hs =>
        obtain ⟨_, _, hget⟩ := bestOf_spec scores hs.1 hs.2 hb
        rw [hb] at h2
        refine hnex ⟨hs.2, List.get?_mem hget, ?_⟩
        rw [hk]
        exact h2
    rw [assignIdentifierCore_eq_create S st.clusters scores identifier page_index none false
      st.next_patient (hnm hnex) (by simp) hns]
    rfl

/-- Concrete linking state for the C3 and C9 evaluations: one cluster
holding mrn 12345, patient counter at 2. -/
def clusterW : ClusterCandidate := newCluster (mkIdent Kind.mrn "12345" (9/10)) 0 1

def stW : LinkState := ⟨[clusterW], 2⟩

def identW : IdentifierMatch := mkIdent Kind.mrn "12345" (8/10)

/-- Witness for C3: a same-mrn identifier on the next page merges into the
existing cluster (case 1 of the precedence). -/
theorem claim3_witness :
    (∃ x ∈ [(1 : ℚ)], thresholdFor defaultSettings Kind.mrn ≤ x)
    ∧ ∃ h s, bestOf [(1 : ℚ)] = some (h, s) ∧ [(1 : ℚ)].get? h = some s
        ∧ (∀ x ∈ [(1 : ℚ)], x ≤ s) ∧ thresholdFor defaultSettings Kind.mrn ≤ s
        ∧ Except.map (fun r => r.1) (linkOne fuzzZero defaultSettings stW [] 0 identW 1) =
            .ok ⟨mergeAt stW.clusters h identW 1 s, stW.next_patient⟩ :=
  ⟨by decide,
    (claim3_resolution_precedence fuzzZero defaultSettings stW [] 0 identW 1 [(1 : ℚ)]
      (by decide) (by decide) (by decide)).1 (by decide)⟩

/-! ## Patient id rendering is injective on positive counters -/

theorem natDigitsAux_eq_digits : ∀ (fuel n : Nat), n ≤ fuel →
    natDigitsAux fuel n = Nat.digits 10 n := by
  intro fuel
  induction fuel with
  | zero =>
    intro n hn
    interval_cases n
    simp [natDigitsAux, Nat.digits_zero]
  | succ f ih =>
    intro n hn
    cases n with
    | zero => simp [natDigitsAux, Nat.digits_zero]
    | succ m =>
      unfold natDigitsAux
      rw [Nat.digits_def' (by norm_num : 1 < 10) (Nat.succ_pos m)]
      rw [ih ((m + 1) / 10) ?_]
      have := Nat.div_lt_self (Nat.succ_pos m) (by norm_num : 1 < 10)
      omega

theorem natDecimalChars_eq (n : Nat) :
    natDecimalChars n = ((Nat.digits 10 n).reverse).map digitChar := by
  unfold natDecimalChars
  rw [natDigitsAux_eq_digits n n (le_refl n)]

theorem charDigit_digitChar : ∀ d < 10, charDigit (digitChar d) = d := by decide

theorem digitChar_ne_zero : ∀ d < 10, d ≠ 0 → digitChar d ≠ '0' := by decide

theorem dropWhile_replicate_zeros (k : Nat) (l : List Char)
    (hl : ∀ c, l.head? = some c → ¬(c = '0')) :
    List.dropWhile (fun c => c = '0') (List.replicate k '0' ++ l) = l := by
  induction k with
  | zero =>
    simp only [List.replicate, List.nil_append]
    cases l with
    | nil => rfl
    | cons c t =>
      rw [List.dropWhile_cons]
      simp [hl c rfl]
  | succ n ih =>
    rw [List.replicate_succ, List.cons_append, List.dropWhile_cons]
    simp [ih]

/-- Left inverse of the zero-padded decimal rendering in `patientIdString`. -/
def unrenderPid (s : String) : Nat :=
  Nat.ofDigits 10 (((s.data.drop 8).dropWhile (fun c => c = '0')).reverse.map charDigit)

theorem unrenderPid_patientIdString (n : Nat) (hn : n ≠ 0) :
    unrenderPid (patientIdString n) = n := by
  have hhead : ∀ c, (natDecimalChars n).head? = some c → ¬(c = '0') := by
    intro c hc
    rw [natDecimalChars_eq] at hc
    rw [List.head?_map, List.head?_reverse] at hc
    have hne : Nat.digits 10 n ≠ [] := Nat.digits_ne_nil_iff_ne_zero.mpr hn
    rw [List.getLast?_eq_getLast_of_ne_nil hne] at hc
    simp only [Option.map_some'] at hc
    have hlast := Nat.getLast_digit_ne_zero 10 hn
    have hlt : (Nat.digits 10 n).getLast hne < 10 :=
      Nat.digits_lt_base (by norm_num) (List.getLast_mem hne)
    injection hc with hc'
    rw [← hc']
    exact digitChar_ne_zero _ hlt hlast
  show Nat.ofDigits 10
    (((("patient_".data ++ (List.replicate (3 - (natDecimalChars n).length) '0' ++
      natDecimalChars n)).drop 8).dropWhile (fun c => c = '0')).reverse.map charDigit) = n
  rw [show (8 : Nat) = ("patient_".data).length from rfl, List.drop_left,
    dropWhile_replicate_zeros _ _ hhead]
  rw [natDecimalChars_eq]
  rw [List.map_reverse, List.map_map]
  have hmapc : (Nat.digits 10 n).reverse.map (charDigit ∘ digitChar) =
      (Nat.digits 10 n).reverse := by
    have h1 : (Nat.digits 10 n).reverse.map (charDigit ∘ digitChar) =
        (Nat.digits 10 n).reverse.map id :=
      List.map_congr_left fun d hd =>
        charDigit_digitChar d (Nat.digits_lt_base (by norm_num) (List.mem_reverse.mp hd))
    rw [h1, List.map_id]
  rw [hmapc, List.reverse_reverse, Nat.ofDigits_digits]

theorem patientIdString_injOn (m n : Nat) (hm : m ≠ 0) (hn : n ≠ 0)
    (h : patientIdString m = patientIdString n) : m = n := by
  have h2 := congrArg unrenderPid h
  rwa [unrenderPid_patientIdString m hm, unrenderPid_patientIdString n hn] at h2

/-! ## The linker's patient id invariant -/

/-- The cluster arena invariant: the counter is one past the arena size,
and the arena's ids are `patient_001 .. patient_k` in creation order. -/
def idsOk (st : LinkState) : Prop :=
  st.next_patient = st.clusters.length + 1 ∧
  st.clusters.map ClusterCandidate.patient_id =
    (List.range st.clusters.length).map (fun i => patientIdString (i + 1))

theorem map_patient_id_set (clusters : List ClusterCandidate) (h : Nat)
    (c c0 : ClusterCandidate) (hc : clusters.get? h = some c0)
    (hid : c.patient_id = c0.patient_id) :
    (clusters.set h c).map ClusterCandidate.patient_id =
      clusters.map ClusterCandidate.patient_id := by
  induction clusters generalizing h with
  | nil => simp
  | cons x rest ih =>
    cases h with
    | zero =>
      simp only [List.get?] at hc
      injection hc with hc'
      subst hc'
      simp [List.set, hid]
    | succ k =>
      simp only [List.get?] at hc
      simp only [List.set, List.map_cons]
      rw [ih k hc]

theorem mergeAt_map_patient_id (clusters : List ClusterCandidate) (h : Nat)
    (identifier : IdentifierMatch) (page_index : Nat) (score : ℚ) :
    (mergeAt clusters h identifier page_index score).map ClusterCandidate.patient_id =
      clusters.map ClusterCandidate.patient_id := by
  unfold mergeAt
  cases hc : clusters.get? h with
  | none => rfl
  | some c => exact map_patient_id_set clusters h _ c hc rfl

/-- One resolution step either keeps the arena's ids (merge, attach,
strict skip) or appends the freshly numbered cluster and advances the
counter. -/
theorem assignIdentifierCore_ids (S : Settings) (clusters : List ClusterCandidate)
    (scores : List ℚ) (identifier : IdentifierMatch) (page_index : Nat)
    (preferred : Option Nat) (force_attach : Bool) (next : Nat) :
    ((assignIdentifierCore S clusters scores identifier page_index preferred
        force_attach next).2.1.map ClusterCandidate.patient_id =
        clusters.map ClusterCandidate.patient_id
      ∧ (assignIdentifierCore S clusters scores identifier page_index preferred
          force_attach next).2.2 = next)
    ∨ ((assignIdentifierCore S clusters scores identifier page_index preferred
        force_attach next).2.1 = clusters ++ [newCluster identifier page_index next]
      ∧ (assignIdentifierCore S clusters scores identifier page_index preferred
          force_attach next).2.2 = next + 1) := by
  unfold assignIdentifierCore
  rcases assignBranch S identifier.kind scores preferred force_attach <;>
    rcases bestOf scores with _ | ⟨h, s⟩ <;>
    rcases preferred with _ | p <;>
    first
      | exact Or.inl ⟨mergeAt_map_patient_id _ _ _ _ _, rfl⟩
      | exact Or.inl ⟨rfl, rfl⟩
      | exact Or.inr ⟨rfl, rfl⟩

theorem linkOne_ids (fz : Fuzz) (S : Settings) (st : LinkState) (anchors : List (Nat × Nat))
    (idx : Nat) (identifier : IdentifierMatch) (page_index : Nat)
    (st' : LinkState) (anchors' : List (Nat × Nat))
    (h : linkOne fz S st anchors idx identifier page_index = .ok (st', anchors'))
    (hok : idsOk st) : idsOk st' := by
  unfold linkOne at h
  cases hsc : matchScores fz st.clusters identifier with
  | error e => rw [hsc] at h; simp [Bind.bind, Except.bind] at h
  | ok scores =>
    rw [hsc] at h
    simp only [Bind.bind, Except.bind, pure, Except.pure, Except.ok.injEq,
      Prod.mk.injEq] at h
    revert h
    generalize (if (!anchors.isEmpty && isSupportiveKind identifier.kind) = true then
      (nearestAnchor idx anchors, true) else ((none : Option Nat), false)) = pf
    intro h
    obtain ⟨hst, -⟩ := h
    rw [← hst]
    obtain ⟨hlen, hmap⟩ := hok
    rcases assignIdentifierCore_ids S st.clusters scores identifier page_index pf.1 pf.2
      st.next_patient with ⟨hm, hn⟩ | ⟨hm, hn⟩
    · have hl : (assignIdentifierCore S st.clusters scores identifier page_index pf.1 pf.2
          st.next_patient).2.1.length = st.clusters.length := by
        have h2 := congrArg List.length hm
        simpa using h2
      constructor
      · show (assignIdentifierCore S st.clusters scores identifier page_index pf.1 pf.2
            st.next_patient).2.2 = (assignIdentifierCore S st.clusters scores identifier
            page_index pf.1 pf.2 st.next_patient).2.1.length + 1
        rw [hn, hl]
        exact hlen
      · show (assignIdentifierCore S st.clusters scores identifier page_index pf.1 pf.2
            st.next_patient).2.1.map ClusterCandidate.patient_id =
          (List.range (assignIdentifierCore S st.clusters scores identifier page_index
            pf.1 pf.2 st.next_patient).2.1.length).map (fun i => patientIdString (i + 1))
        rw [hm, hl, hmap]
    · constructor
      · show (assignIdentifierCore S st.clusters scores identifier page_index pf.1 pf.2
            st.next_patient).2.2 = (assignIdentifierCore S st.clusters scores identifier
            page_index pf.1 pf.2 st.next_patient).2.1.length + 1
        rw [hn, hm]
        simp [hlen]
      · show (assignIdentifierCore S st.clusters scores identifier page_index pf.1 pf.2
            st.next_patient).2.1.map ClusterCandidate.patient_id =
          (List.range (assignIdentifierCore S st.clusters scores identifier page_index
            pf.1 pf.2 st.next_patient).2.1.length).map (fun i => patientIdString (i + 1))
        rw [hm]
        simp only [List.map_append, List.length_append, List.map_cons, List.map_nil,
          List.length_cons, List.length_nil, Nat.add_zero, Nat.zero_add]
        rw [hmap, hlen, List.range_succ, List.map_append]
        rfl

theorem linkIdentifiers_ids (fz : Fuzz) (S : Settings) (page_index : Nat) :
    ∀ (idents : List IdentifierMatch) (idx : Nat) (st : LinkState)
      (anchors : List (Nat × Nat)) (r' : LinkState × List (Nat × Nat)),
      linkIdentifiers fz S page_index idx idents st anchors = .ok r' →
      idsOk st → idsOk r'.1 := by
  intro idents
  induction idents with
  | nil =>
    intro idx st anchors r' h hok
    unfold linkIdentifiers at h
    rw [Except.ok.injEq] at h
    rw [← h]
    exact hok
  | cons ident rest ih =>
    intro idx st anchors r' h hok
    unfold linkIdentifiers at h
    cases ho : linkOne fz S st anchors idx ident page_index with
    | error e => rw [ho] at h; simp [Bind.bind, Except.bind] at h
    | ok r0 =>
      rw [ho] at h
      simp only [Bind.bind, Except.bind] at h
      exact ih (idx + 1) r0.1 r0.2 r' h
        (linkOne_ids fz S st anchors idx ident page_index r0.1 r0.2 ho hok)

theorem linkPages_ids (fz : Fuzz) (S : Settings) :
    ∀ (pages : List PageEntities) (st st' : LinkState),
      linkPages fz S pages st = .ok st' → idsOk st → idsOk st' := by
  intro pages
  induction pages with
  | nil =>
    intro st st' h hok
    unfold linkPages at h
    rw [Except.ok.injEq] at h
    rw [← h]
    exact hok
  | cons page rest ih =>
    intro st st' h hok
    unfold linkPages at h
    cases ho : linkIdentifiers fz S page.page_index 0 page.identifiers st [] with
    | error e => rw [ho] at h; simp [Bind.bind, Except.bind] at h
    | ok r0 =>
      rw [ho] at h
      simp only [Bind.bind, Except.bind] at h
      exact ih r0.1 st' h
        (linkIdentifiers_ids fz S page.page_index page.identifiers 0 st [] r0 ho hok)

/-- Claim C9 (confirmed): a single invocation of `link` on a freshly
constructed linker yields clusters whose patient ids are exactly
`patient_001, patient_002, …` in creation order — pairwise distinct,
monotonically assigned, with the output list preserving creation order. -/
theorem claim9_patient_ids (fz : Fuzz) (S : Settings) (pages : List PageEntities)
    (res : List LinkedPatient) (h : link fz S pages = .ok res) :
    res.map LinkedPatient.patient_id =
      (List.range res.length).map (fun i => patientIdString (i + 1))
    ∧ (res.map LinkedPatient.patient_id).Nodup := by
  unfold link at h
  cases hp : linkPages fz S pages ⟨[], 1⟩ with
  | error e => rw [hp] at h; simp [Bind.bind, Except.bind] at h
  | ok st =>
    rw [hp] at h
    simp only [Bind.bind, Except.bind, pure, Except.pure, Except.ok.injEq] at h
    subst h
    have hok : idsOk st := linkPages_ids fz S pages ⟨[], 1⟩ st hp ⟨rfl, rfl⟩
    have hcomp : (st.clusters.map toLinkedPatient).map LinkedPatient.patient_id =
        st.clusters.map ClusterCandidate.patient_id := by
      rw [List.map_map]
      rfl
    have hlen : (st.clusters.map toLinkedPatient).length = st.clusters.length :=
      List.length_map _ _
    constructor
    · rw [hcomp, hlen, hok.2]
    · rw [hcomp, hok.2]
      refine List.Nodup.map_on ?_ (List.nodup_range _)
      intro i _ j _ hij
      have := patientIdString_injOn (i + 1) (j + 1) (Nat.succ_ne_zero i)
        (Nat.succ_ne_zero j) hij
      omega

/-- Witness for C9: linking one page with a single mrn yields exactly
`patient_001`. -/
theorem claim9_witness :
    ([toLinkedPatient clusterW].map LinkedPatient.patient_id =
      (List.range [toLinkedPatient clusterW].length).map (fun i => patientIdString (i + 1)))
    ∧ ([toLinkedPatient clusterW].map LinkedPatient.patient_id).Nodup :=
  claim9_patient_ids fuzzZero defaultSettings [⟨0, [mkIdent Kind.mrn "12345" (9/10)]⟩]
    [toLinkedPatient clusterW] (by decide)

end Verification

end Tennr
